import Mathlib

/-!
# Verification of the CameraCodeRead frame pipeline

Shallow embedding of `src/camera_worker.py`, `src/code_storage.py` and
`src/code_recognition.py`. Pure per-frame and per-iteration logic is embedded
as Lean functions; the external collaborators (IMV driver, the pixel
conversion routine, the QR/barcode detectors, the filesystem) are modelled as
explicit parameters: the status returned by `IMV_PixelConvert`, the texts and
detections produced by the detectors, and whether a file write succeeds.
Machine buffers are modelled by their provenance (driver-owned vs
Python-owned) so that aliasing of the driver buffer can be stated.
-/

/-! ## numpy / ctypes fragment used by `_convert_frame_to_rgb`

`np.ctypeslib.as_array` over a ctypes buffer produces a *view* of that
buffer; `reshape` with a compatible element count produces a view (and raises
`ValueError`, caught by the surrounding `except`, otherwise); the slice
`[:, :, ::-1]` produces a view; `cv2.cvtColor` allocates a fresh output
array; `.copy()` allocates a fresh array. We track only the array's shape and
which allocation backs its storage. -/

/-- Provenance of the memory backing a numpy array: the driver-owned frame
buffer (`frame.pData`) or an allocation owned by the Python process (a ctypes
destination buffer or a fresh numpy allocation). -/
inductive Storage where
  | driverBuffer
  | pythonOwned
deriving DecidableEq, Repr

/-- A numpy array: its shape and the storage backing it. -/
structure NDArray where
  shape : List Nat
  storage : Storage
deriving DecidableEq, Repr

/-- Embedding of `np.ctypeslib.as_array` over a 1-dimensional ctypes buffer of `len`
bytes: a view of that buffer. -/
def npAsArray (storage : Storage) (len : Nat) : NDArray :=
  { shape := [len], storage := storage }

/-- Embedding of `ndarray.reshape(shape)`: a view when the element counts agree,
`ValueError` (here `none`) otherwise. -/
def NDArray.reshape (a : NDArray) (shape : List Nat) : Option NDArray :=
  if a.shape.prod = shape.prod then some { shape := shape, storage := a.storage } else none

/-- The slice `a[:, :, ::-1]`: a view of the same storage (it only reverses
the reading order of the last axis, no data copy). -/
def NDArray.revSlice (a : NDArray) : NDArray :=
  { shape := a.shape, storage := a.storage }

/-- Embedding of `cv2.cvtColor(a, cv2.COLOR_GRAY2RGB)`: allocates a fresh 3-channel
output array. -/
def cvtColorGray2RGB (a : NDArray) : NDArray :=
  { shape := a.shape ++ [3], storage := .pythonOwned }

/-- Embedding of `ndarray.copy()`: a fresh independently-owned allocation. -/
def NDArray.npCopy (a : NDArray) : NDArray :=
  { shape := a.shape, storage := .pythonOwned }

/-! ## IMV frames (`IMVApi` boundary) -/

/-- The pixel-format tags distinguished by `_convert_frame_to_rgb`:
`gvspPixelMono8` and `gvspPixelBGR8` are handled directly, every other
format (Bayer patterns etc., represented here by `gvspPixelBayerRG8`) goes
through `IMV_PixelConvert`. -/
inductive IMVPixelType where
  | gvspPixelMono8
  | gvspPixelBGR8
  | gvspPixelBayerRG8
deriving DecidableEq, Repr

/-- The fields of `IMV_FrameInfo` read by the worker. -/
structure IMVFrameInfo where
  width : Nat
  height : Nat
  pixelFormat : IMVPixelType
  size : Nat
  paddingX : Nat
  paddingY : Nat
deriving DecidableEq, Repr

/-- An `IMV_Frame`: metadata plus the (driver-owned) data buffer, which we
identify by its provenance alone. -/
structure IMVFrame where
  frameInfo : IMVFrameInfo
deriving DecidableEq, Repr

/-- Outcome of one `_convert_frame_to_rgb` call: the returned image (or
`None`) and how many times `IMV_ReleaseFrame` was invoked on the source
frame during the call. -/
structure ConvOutcome where
  result : Option NDArray
  releases : Nat
deriving DecidableEq, Repr

/-- Shallow embedding of `CameraWorker._convert_frame_to_rgb`
(src/camera_worker.py lines 262-330). `pixelConvertStatus` is the status
code returned by the external `IMV_PixelConvert` routine (`IMV_OK = 0`).
A failed `reshape` raises `ValueError`, which the function's `except` clause
turns into a `None` return. Note that the single `IMV_ReleaseFrame` call
sits after the format branch and *before* `return rgb_image`, so it is
reached only when conversion succeeded; the `return None` on a non-`IMV_OK`
conversion status and the `except` path both skip it. -/
def convertFrameToRGB (frame : IMVFrame) (pixelConvertStatus : Int) : ConvOutcome :=
  let width := frame.frameInfo.width
  let height := frame.frameInfo.height
  match frame.frameInfo.pixelFormat with
  | .gvspPixelMono8 =>
    match (npAsArray .driverBuffer frame.frameInfo.size).reshape [height, width] with
    | none => { result := none, releases := 0 }
    | some imageArray =>
      let rgbImage := cvtColorGray2RGB imageArray
      { result := some rgbImage, releases := 1 }
  | .gvspPixelBGR8 =>
    match (npAsArray .driverBuffer frame.frameInfo.size).reshape [height, width, 3] with
    | none => { result := none, releases := 0 }
    | some imageArray =>
      let rgbImage := imageArray.revSlice
      { result := some rgbImage, releases := 1 }
  | _ =>
    let dstSize := width * height * 3
    let dstBuffer := npAsArray .pythonOwned dstSize
    if pixelConvertStatus ≠ 0 then
      { result := none, releases := 0 }
    else
      match dstBuffer.reshape [height, width, 3] with
      | none => { result := none, releases := 0 }
      | some imageArray =>
        let rgbImage := imageArray.revSlice
        { result := some rgbImage, releases := 1 }

/-- A well-formed Mono8 frame (2x2, 4 bytes). -/
def mono8Frame : IMVFrame :=
  { frameInfo :=
    { width := 2, height := 2, pixelFormat := .gvspPixelMono8,
      size := 4, paddingX := 0, paddingY := 0 } }

/-- A malformed Mono8 frame whose buffer length does not match
`height * width`, so `reshape` raises `ValueError`. -/
def mono8BadSizeFrame : IMVFrame :=
  { frameInfo :=
    { width := 2, height := 2, pixelFormat := .gvspPixelMono8,
      size := 5, paddingX := 0, paddingY := 0 } }

/-- A well-formed BGR8 frame (2x2x3, 12 bytes). -/
def bgr8Frame : IMVFrame :=
  { frameInfo :=
    { width := 2, height := 2, pixelFormat := .gvspPixelBGR8,
      size := 12, paddingX := 0, paddingY := 0 } }

/-- A Bayer frame (2x2), routed through `IMV_PixelConvert`. -/
def bayerFrame : IMVFrame :=
  { frameInfo :=
    { width := 2, height := 2, pixelFormat := .gvspPixelBayerRG8,
      size := 4, paddingX := 0, paddingY := 0 } }

/-- Claim C1: the spec demands that the source frame be released exactly once
on every code path of the per-frame conversion (success, conversion failure,
exception). The code violates this: when `IMV_PixelConvert` returns a
non-success status the function returns `None` before ever reaching the
`IMV_ReleaseFrame(frame_data)` call, and the exception path (here: a
`reshape` `ValueError` on a size-mismatched Mono8 frame) likewise skips it,
so on both failure paths the frame is released zero times, not once. Only
the success path releases it. -/
theorem convertFrameToRGB_leaks_frame_on_failure :
    (convertFrameToRGB bayerFrame 1).releases = 0 ∧
    (convertFrameToRGB bayerFrame 1).result = none ∧
    (convertFrameToRGB mono8BadSizeFrame 0).releases = 0 ∧
    (convertFrameToRGB mono8BadSizeFrame 0).result = none ∧
    (convertFrameToRGB mono8Frame 0).releases = 1 := by
  decide

/-- Claim C3: the spec demands that the normalized image returned by the
conversion path be an independent copy with no aliasing to the driver
buffer. The code violates this for BGR8 frames: `image_array` is a
`np.ctypeslib.as_array` view of `frame_data.pData` and
`rgb_image = image_array[:, :, ::-1]` is a slice view of the same storage,
yet the function then calls `IMV_ReleaseFrame` and returns that view, so the
returned image aliases the driver buffer that has already been handed back
to the driver. -/
theorem convertFrameToRGB_bgr8_aliases_released_buffer :
    (convertFrameToRGB bgr8Frame 0).result =
      some { shape := [2, 2, 3], storage := .driverBuffer } ∧
    (convertFrameToRGB bgr8Frame 0).releases = 1 := by
  decide

/-! ## `CodeStorage` (src/code_storage.py)

The store is an `OrderedDict` mapping decoded text to an entry dict
`{'info': text, 'type': code_type, 'timestamp': ...}`; we keep the ordered
map as the list of its entries in insertion order, keyed by `info`.
Timestamps (`datetime.now().strftime('%Y-%m-%d %H:%M:%S')`, which compares
consistently with chronological order) are modelled as naturals supplied by
the caller as the ambient clock. The backing JSON file's `codes` list is
carried alongside as `fileCodes`; whether a `_save_to_file` write succeeds
is an explicit `saveOk` parameter (on failure the exception is caught and
logged inside `_save_to_file` itself). -/

/-- One stored entry: `{'info': ..., 'type': ..., 'timestamp': ...}`. -/
structure StoredCodeEntry where
  info : String
  ctype : String
  timestamp : Nat
deriving DecidableEq, Repr

/-- In-memory state of a `CodeStorage` instance plus the last successfully
written on-disk snapshot. -/
structure CodeStore where
  maxCacheSize : Nat
  cache : List StoredCodeEntry
  fileCodes : List StoredCodeEntry
deriving DecidableEq, Repr

/-- Python `text in self.codes_cache` (dict key membership). -/
def dictContains (cache : List StoredCodeEntry) (key : String) : Bool :=
  cache.any (fun e => e.info = key)

/-- Python `d[key] = v` on an (ordered) dict: replace in place when the key
is present, append otherwise. -/
def dictSet : List StoredCodeEntry → String → StoredCodeEntry → List StoredCodeEntry
  | [], _, v => [v]
  | e :: es, key, v => if e.info = key then v :: es else e :: dictSet es key v

/-- Result of one `add_code` call: the returned `is_new`, the store
afterwards, and how many `_save_to_file` calls were made. -/
structure AddOutcome where
  isNew : Bool
  store : CodeStore
  saveCalls : Nat
deriving DecidableEq, Repr

/-- Shallow embedding of `CodeStorage.add_code` (src/code_storage.py lines
117-150). `now` is the current timestamp, `saveOk` whether the file write
inside `_save_to_file` succeeds (its failure is caught and only logged).
When the cache is at capacity the oldest entry — `next(iter(...))`, the
front of the ordered map — is deleted before inserting; on an *empty* cache
with `max_cache_size = 0` that `next(iter(...))` raises `StopIteration`,
which `add_code` does not catch, modelled as `none`. -/
def addCode (s : CodeStore) (text codeType : String) (now : Nat) (saveOk : Bool) :
    Option AddOutcome :=
  if dictContains s.cache text then
    some { isNew := false, store := s, saveCalls := 0 }
  else
    let afterEvict : Option (List StoredCodeEntry) :=
      if s.cache.length ≥ s.maxCacheSize then
        match s.cache with
        | [] => none
        | _oldest :: rest => some rest
      else some s.cache
    match afterEvict with
    | none => none
    | some cache1 =>
      let entry : StoredCodeEntry := { info := text, ctype := codeType, timestamp := now }
      let cache2 := dictSet cache1 text entry
      some { isNew := true,
             store := { s with
                        cache := cache2
                        fileCodes := if saveOk then cache2 else s.fileCodes },
             saveCalls := 1 }

/-- A freshly constructed store with no pre-existing backing file. -/
def emptyStore (maxCacheSize : Nat) : CodeStore :=
  { maxCacheSize := maxCacheSize, cache := [], fileCodes := [] }

/-- Driver for the capacity scenario: perform a sequence of `add_code` calls
(each element is `(text, code_type, timestamp)`, writes succeeding),
propagating a `StopIteration` as `none`. -/
def addCodes (s : CodeStore) : List (String × String × Nat) → Option CodeStore
  | [] => some s
  | c :: cs =>
    match addCode s c.1 c.2.1 c.2.2 true with
    | none => none
    | some r => addCodes r.store cs

/-! ## Loading the backing file (`_load_from_file`, `_load_partial`) -/

/-- The descending-timestamp order used by
`codes_list.sort(key=lambda x: x['timestamp'], reverse=True)`. -/
def tsGE (a b : StoredCodeEntry) : Prop := b.timestamp ≤ a.timestamp

instance : DecidableRel tsGE := fun a b => Nat.decLe b.timestamp a.timestamp

instance : IsTotal StoredCodeEntry tsGE :=
  ⟨fun a b => le_total b.timestamp a.timestamp⟩

instance : IsTrans StoredCodeEntry tsGE :=
  ⟨fun _ _ _ hab hbc => le_trans hbc hab⟩

/-- Embedding of `codes_list.sort(key=lambda x: x['timestamp'], reverse=True)`: a stable
sort by timestamp descending (with the claims' distinct timestamps any
correct descending sort agrees with Python's). -/
def sortByTimestampDesc (l : List StoredCodeEntry) : List StoredCodeEntry :=
  List.insertionSort tsGE l

/-- Python `for entry in codes: self.codes_cache[entry['info']] = entry`
starting from the given cache. -/
def loadEntries (cache : List StoredCodeEntry) (codes : List StoredCodeEntry) :
    List StoredCodeEntry :=
  codes.foldl (fun c e => dictSet c e.info e) cache

/-- Shallow embedding of `CodeStorage._load_partial` (src/code_storage.py
lines 90-106): sort by timestamp descending, keep the first
`max_cache_size` entries, insert them into the (empty) cache keyed by
`info`. -/
def loadPartial (maxCacheSize : Nat) (codesList : List StoredCodeEntry) :
    List StoredCodeEntry :=
  let sorted := sortByTimestampDesc codesList
  let recentCodes := sorted.take maxCacheSize
  loadEntries [] recentCodes

/-- Shallow embedding of `CodeStorage._load_from_file` (src/code_storage.py
lines 53-88), for an existing, parseable backing file of `fileSizeBytes`
bytes holding `codesList`. The Python size check divides by `1024 * 1024`
(an exact power-of-two scaling in floating point), so
`file_size_mb > max_file_size_mb` is exactly
`fileSizeBytes > maxFileSizeMB * 1024 * 1024`. -/
def loadFromFile (maxCacheSize maxFileSizeMB : Nat) (fileSizeBytes : Nat)
    (codesList : List StoredCodeEntry) : List StoredCodeEntry :=
  if fileSizeBytes > maxFileSizeMB * 1024 * 1024 then
    loadPartial maxCacheSize codesList
  else if codesList.length > maxCacheSize then
    loadEntries [] ((sortByTimestampDesc codesList).take maxCacheSize)
  else
    loadEntries [] codesList

/-! ## Python string splitting

`str.split(sep)` for a one-character separator, keeping empty parts, and
`str.split(sep, 1)` (split at the first occurrence only), as used by
`_recognition_worker` on `','` and `':'`. -/

/-- Python `str.split(sep)` on the character list: always returns a non-empty list
of parts. -/
def splitChars (sep : Char) : List Char → List (List Char)
  | [] => [[]]
  | c :: cs =>
    match splitChars sep cs with
    | [] => [[]]
    | r :: rs => if c = sep then [] :: r :: rs else (c :: r) :: rs

/-- Python `s.split(sep)` for a single-character separator. -/
def pySplit (s : String) (sep : Char) : List String :=
  (splitChars sep s.data).map List.asString

/-- Helper for `s.split(sep, 1)`: the part before and after the first
occurrence of `sep`, or `none` when `sep` does not occur. -/
def splitFirstAux (sep : Char) : List Char → List Char → Option (List Char × List Char)
  | _, [] => none
  | acc, c :: cs =>
    if c = sep then some (acc.reverse, cs) else splitFirstAux sep (c :: acc) cs

/-- The per-element parse done inside the worker's `for code in codes:` loop:
`code_type = code.split(':', 1)[0] if ":" in code else "Unknown"` and
`text = code.split(':', 1)[1] if ":" in code else code`. -/
def parseCode (code : String) : String × String :=
  match splitFirstAux ':' [] code.data with
  | some (pre, post) => (pre.asString, post.asString)
  | none => ("Unknown", code)

/-! ## Recognition worker loop body (src/camera_worker.py lines 219-260) -/

/-- A detection dict `{'type': ..., 'points': ...}` produced by the
recognition engine. -/
structure Detection where
  dtype : String
  points : List (Int × Int)
deriving DecidableEq, Repr

/-- Observable outcome of one loop iteration of `_recognition_worker` after
an image was dequeued: the `(text, code_type)` argument pairs passed to
`storage.add_code`, whether `result_signal` (the "new result" event) was
emitted, whether `detection_signal` was emitted, and the store afterwards. -/
structure RecognitionOutcome where
  addCalls : List (String × String)
  newResultPublished : Bool
  emittedDetections : Option (List Detection)
  store : CodeStore
deriving DecidableEq, Repr

/-- Shallow embedding of the body of `_recognition_worker` for one dequeued
image, given the `(decoded_text, detections)` pair the recognizer returned
for it. `if decoded_text:` is Python truthiness (skips both `None` and the
empty string). Inside the taken branch, `codes = decoded_text.split(',')`
and the `for code in codes:` loop rebinds `code_type`/`text` on every
iteration without doing anything else, so after the loop they hold the parse
of the *last* element, and the single `add_code` call that follows the loop
uses only that pair. A `StopIteration` escaping `add_code` is caught by the
iteration's `except Exception` handler, skipping `detection_signal.emit`. -/
def recognitionStep (store : CodeStore) (decodedText : Option String)
    (detections : List Detection) (now : Nat) (saveOk : Bool) : RecognitionOutcome :=
  match decodedText with
  | some txt =>
    if txt ≠ "" then
      let codes := pySplit txt ','
      let parsed := parseCode (codes.getLastD "")
      let codeType := parsed.1
      let text := parsed.2
      match addCode store text codeType now saveOk with
      | some r =>
        { addCalls := [(text, codeType)], newResultPublished := r.isNew,
          emittedDetections := some detections, store := r.store }
      | none =>
        { addCalls := [(text, codeType)], newResultPublished := false,
          emittedDetections := none, store := store }
    else
      { addCalls := [], newResultPublished := false,
        emittedDetections := some detections, store := store }
  | none =>
    { addCalls := [], newResultPublished := false,
      emittedDetections := some detections, store := store }

/-! ## Recognition engine wrapper (src/code_recognition.py)

The underlying detectors (`wechat_qrcode`, `pyzbar`) are external
collaborators: the combined `texts`/`detections` they produce for an image
are taken as inputs, and `detect_codes_with_positions` is embedded as the
logic it wraps around them. -/

/-- Mutable state of a `CodeRecognizer`: `self.last_result` (initially
`None`). -/
structure RecognizerState where
  lastResult : Option String
deriving DecidableEq, Repr

/-- Shallow embedding of `CodeRecognizer.detect_codes_with_positions`
(src/code_recognition.py lines 107-146), given the accumulated `texts` and
`detections` lists the two detectors produced: if any text was decoded, the
combined text `", ".join(texts)` is compared against `self.last_result`;
when different it is stored and returned, when equal only the detections are
returned (`None` as the decoded text). With no decoded text, `(None, [])`
is returned and `last_result` is left unchanged. -/
def detectCodesWithPositions (s : RecognizerState) (texts : List String)
    (detections : List Detection) : (Option String × List Detection) × RecognizerState :=
  if texts ≠ [] then
    let combinedText := String.intercalate ", " texts
    if some combinedText ≠ s.lastResult then
      ((some combinedText, detections), { lastResult := some combinedText })
    else
      ((none, detections), s)
  else
    ((none, []), s)

/-! ## Frame callback (src/camera_worker.py lines 166-217)

The per-frame state of a `CameraWorker` touched by `_frame_callback`, with
the values set in `__init__`: `recognition_interval = 10`,
`display_interval = 1`, `fps_update_interval = 30`, recognition queue of
`maxsize = 2`. Conversion of a successfully normalized RGB image to a
`QImage` copies the data (`tobytes()`) and is modelled as succeeding. -/

/-- Worker-thread state read and written by `_frame_callback`. -/
structure WorkerState where
  frameCount : Nat
  displayCount : Nat
  recognitionInterval : Nat
  displayInterval : Nat
  fpsFrameCount : Nat
  fpsUpdateInterval : Nat
  recognitionQueue : List NDArray
  queueMaxsize : Nat
deriving DecidableEq, Repr

/-- The state right after `CameraWorker.__init__`. -/
def initWorkerState : WorkerState :=
  { frameCount := 0, displayCount := 0, recognitionInterval := 10,
    displayInterval := 1, fpsFrameCount := 0, fpsUpdateInterval := 30,
    recognitionQueue := [], queueMaxsize := 2 }

/-- Signals emitted during one `_frame_callback` invocation, plus whether
the frame was enqueued for recognition or dropped on a full queue. -/
structure CallbackEvents where
  displayEmitted : Bool
  enqueued : Bool
  queueFullLogged : Bool
  fpsEmitted : Bool
deriving DecidableEq, Repr

/-- No signals: the early-return outcome. -/
def noEvents : CallbackEvents :=
  { displayEmitted := false, enqueued := false, queueFullLogged := false,
    fpsEmitted := false }

/-- Embedding of `queue.Queue(maxsize).put_nowait(x)`: appends at the tail (FIFO) and
raises `queue.Full` (here `none`) when the queue already holds `maxsize`
items; a `maxsize` of zero means unbounded in Python. -/
def tryPutNowait (q : List NDArray) (maxsize : Nat) (x : NDArray) :
    Option (List NDArray) :=
  if maxsize = 0 ∨ q.length < maxsize then some (q ++ [x]) else none

/-- Shallow embedding of `CameraWorker._frame_callback` for one delivered
frame, given the result of `_convert_frame_to_rgb` for it (`none` covers
both a conversion failure and a conversion exception — the frame callback
then returns at `if rgb_image is None`, touching no counter and emitting no
signal; any other exception in the callback body is caught and logged by its
own `except`, so nothing ever propagates into the SDK). On a converted
image: both counters are incremented; the image is emitted for display on
the display-decimation boundary; on the recognition-decimation boundary an
independent copy (`rgb_image.copy()`) is enqueued with `put_nowait`, a full
queue being logged at debug level and otherwise ignored; finally the FPS
counter is advanced and the FPS signal emitted every
`fps_update_interval` frames. -/
def frameCallback (s : WorkerState) (converted : Option NDArray) :
    WorkerState × CallbackEvents :=
  match converted with
  | none => (s, noEvents)
  | some rgbImage =>
    let frameCount := s.frameCount + 1
    let displayCount := s.displayCount + 1
    let displayEmitted := displayCount % s.displayInterval == 0
    let enq : List NDArray × Bool × Bool :=
      if frameCount % s.recognitionInterval == 0 then
        match tryPutNowait s.recognitionQueue s.queueMaxsize rgbImage.npCopy with
        | some q => (q, true, false)
        | none => (s.recognitionQueue, false, true)
      else (s.recognitionQueue, false, false)
    let fpsFrameCount := s.fpsFrameCount + 1
    let fps : Nat × Bool :=
      if fpsFrameCount ≥ s.fpsUpdateInterval then (0, true) else (fpsFrameCount, false)
    ({ s with
       frameCount := frameCount
       displayCount := displayCount
       recognitionQueue := enq.1
       fpsFrameCount := fps.1 },
     { displayEmitted := displayEmitted, enqueued := enq.2.1,
       queueFullLogged := enq.2.2, fpsEmitted := fps.2 })

/-- Run `_frame_callback` over a sequence of delivered frames (each given by
its conversion result), collecting the per-frame events. -/
def processFrames (s : WorkerState) :
    List (Option NDArray) → WorkerState × List CallbackEvents
  | [] => (s, [])
  | f :: fs =>
    let r := frameCallback s f
    let rest := processFrames r.1 fs
    (rest.1, r.2 :: rest.2)

/-! ## Ordered-dict lemmas -/

theorem dictContains_eq_false_iff {cache : List StoredCodeEntry} {k : String} :
    dictContains cache k = false ↔ ∀ e ∈ cache, e.info ≠ k := by
  simp [dictContains]

theorem dictSet_of_not_contains {cache : List StoredCodeEntry} {k : String}
    (h : dictContains cache k = false) (v : StoredCodeEntry) :
    dictSet cache k v = cache ++ [v] := by
  induction cache with
  | nil => rfl
  | cons e es ih =>
    rw [dictContains_eq_false_iff] at h
    have he : e.info ≠ k := h e (by simp)
    have hes : dictContains es k = false := by
      rw [dictContains_eq_false_iff]
      exact fun x hx => h x (by simp [hx])
    simp [dictSet, he, ih hes]

theorem dictContains_append {c1 c2 : List StoredCodeEntry} {k : String} :
    dictContains (c1 ++ c2) k = (dictContains c1 k || dictContains c2 k) := by
  simp [dictContains, List.any_append]

/-! ## Settling the claims about `CodeStorage` -/

/-- Claim C6, counterexample to the claim as stated: it quantifies over every
store and every text not in it, but in a store constructed with
`max_cache_size = 0` and an empty cache, the first `add_code` finds the
cache "full" (`0 >= 0`), and `next(iter(self.codes_cache))` on the empty
dict raises `StopIteration` instead of returning `True`: no entry is stored
at all. -/
theorem addCode_zero_capacity_raises :
    addCode (emptyStore 0) "ABC123" "QR" 0 true = none := by
  decide

/-- Claim C6 (amended: the store's capacity is positive, or its cache is
non-empty so that eviction can succeed): adding a text that is not in the
store returns `is_new = true`; immediately adding it again returns
`is_new = false` with the store untouched and no file write; and after the
two calls the store holds exactly one entry keyed by that text. -/
theorem addCode_dedup_idempotent (s : CodeStore) (text codeType : String)
    (t1 t2 : Nat) (ok1 ok2 : Bool)
    (hcap : 0 < s.maxCacheSize ∨ s.cache ≠ [])
    (habsent : dictContains s.cache text = false) :
    ∃ r1 : AddOutcome,
      addCode s text codeType t1 ok1 = some r1 ∧ r1.isNew = true ∧
      addCode r1.store text codeType t2 ok2 =
        some { isNew := false, store := r1.store, saveCalls := 0 } ∧
      (r1.store.cache.filter (fun e => e.info = text)).length = 1 := by
  have hifneg : ¬ (dictContains s.cache text = true) := by simp [habsent]
  -- the cache after the (possible) eviction, still free of `text`
  have hstep : ∃ cache1,
      addCode s text codeType t1 ok1 =
        some { isNew := true,
               store := { s with
                          cache := cache1 ++ [⟨text, codeType, t1⟩]
                          fileCodes := if ok1 then cache1 ++ [⟨text, codeType, t1⟩]
                                       else s.fileCodes },
               saveCalls := 1 } ∧
      dictContains cache1 text = false := by
    by_cases hfull : s.cache.length ≥ s.maxCacheSize
    · match hc : s.cache with
      | [] =>
        exfalso
        rcases hcap with hpos | hne
        · rw [hc] at hfull; simp at hfull; omega
        · exact hne hc
      | e :: rest =>
        refine ⟨rest, ?_, ?_⟩
        · rw [addCode, if_neg hifneg]
          have hrest : dictContains rest text = false := by
            rw [dictContains_eq_false_iff]
            intro x hx
            exact dictContains_eq_false_iff.mp habsent x (by rw [hc]; simp [hx])
          simp only [hc] at hfull ⊢
          rw [if_pos hfull]
          simp [dictSet_of_not_contains hrest]
        · rw [dictContains_eq_false_iff]
          intro x hx
          exact dictContains_eq_false_iff.mp habsent x (by rw [hc]; simp [hx])
    · refine ⟨s.cache, ?_, habsent⟩
      rw [addCode, if_neg hifneg]
      rw [if_neg hfull]
      simp [dictSet_of_not_contains habsent]
  obtain ⟨cache1, hadd, hfree⟩ := hstep
  refine ⟨_, hadd, rfl, ?_, ?_⟩
  · rw [addCode]
    have : dictContains (cache1 ++ [(⟨text, codeType, t1⟩ : StoredCodeEntry)]) text = true := by
      rw [dictContains_append]
      simp [dictContains]
    rw [if_pos this]
  · have hnil : cache1.filter (fun e => e.info = text) = [] := by
      rw [List.filter_eq_nil_iff]
      intro e he
      simpa using dictContains_eq_false_iff.mp hfree e he
    simp [List.filter_append, hnil]

/-- Witness for `addCode_dedup_idempotent` at a concrete store. -/
theorem addCode_dedup_idempotent_witness :
    (addCode (emptyStore 10) "ABC123" "QR" 0 true).map (fun r => r.isNew) = some true := by
  obtain ⟨r1, h1, hnew, -, -⟩ :=
    addCode_dedup_idempotent (emptyStore 10) "ABC123" "QR" 0 1 true true
      (Or.inl (by decide)) (by decide)
  rw [h1]
  simp [hnew]

/-- Claim C9: an `add_code` call that inserts a new key makes exactly one
`_save_to_file` call serializing the full map's values (`list(
self.codes_cache.values())`), a duplicate makes none and leaves the store
untouched; and since `_save_to_file` catches its own exceptions, a failed
write changes neither the in-memory cache nor the returned `is_new` — only
the on-disk snapshot lags behind. -/
theorem addCode_write_through (s : CodeStore) (text codeType : String) (now : Nat) :
    (∀ (ok : Bool) (r : AddOutcome), addCode s text codeType now ok = some r →
        r.saveCalls = (if r.isNew then 1 else 0) ∧
        (r.isNew = true → ok = true → r.store.fileCodes = r.store.cache) ∧
        (r.isNew = true → ok = false → r.store.fileCodes = s.fileCodes) ∧
        (r.isNew = false → r.store = s)) ∧
    (addCode s text codeType now true).map (fun r => (r.isNew, r.store.cache)) =
      (addCode s text codeType now false).map (fun r => (r.isNew, r.store.cache)) := by
  constructor
  · intro ok r hr
    by_cases hdup : dictContains s.cache text = true
    · rw [addCode, if_pos hdup] at hr
      obtain rfl : ({ isNew := false, store := s, saveCalls := 0 } : AddOutcome) = r :=
        Option.some.inj hr
      exact ⟨rfl, by simp, by simp, fun _ => rfl⟩
    · rw [addCode, if_neg hdup] at hr
      by_cases hfull : s.cache.length ≥ s.maxCacheSize
      · match hc : s.cache with
        | [] =>
          rw [hc] at hr
          simp only [hfull, hc] at hr
          rw [if_pos (by rw [hc] at hfull; exact hfull)] at hr
          exact absurd hr (by simp)
        | e :: rest =>
          rw [hc] at hr
          rw [if_pos (by rw [hc] at hfull; exact hfull)] at hr
          obtain rfl := Option.some.inj hr
          refine ⟨rfl, fun _ hok => ?_, fun _ hok => ?_, by simp⟩
          · simp [hok]
          · simp [hok]
      · rw [if_neg hfull] at hr
        obtain rfl := Option.some.inj hr
        refine ⟨rfl, fun _ hok => ?_, fun _ hok => ?_, by simp⟩
        · simp [hok]
        · simp [hok]
  · by_cases hdup : dictContains s.cache text = true
    · rw [addCode, if_pos hdup, addCode, if_pos hdup]
    · rw [addCode, if_neg hdup, addCode, if_neg hdup]
      by_cases hfull : s.cache.length ≥ s.maxCacheSize
      · match hc : s.cache with
        | [] => rw [if_pos (by rw [hc] at hfull; exact hfull)]
        | e :: rest =>
          rw [if_pos (by rw [hc] at hfull; exact hfull)]
          simp
      · rw [if_neg hfull]
        simp

/-- Witness for `addCode_write_through` at a concrete store. -/
theorem addCode_write_through_witness :
    (addCode (emptyStore 10) "A" "QR" 5 true).map (fun r => (r.isNew, r.store.cache)) =
      (addCode (emptyStore 10) "A" "QR" 5 false).map (fun r => (r.isNew, r.store.cache)) :=
  (addCode_write_through (emptyStore 10) "A" "QR" 5).2

/-- Claim C5, counterexample to the claim as stated: it quantifies over
every capacity, but with `max_cache_size = 0` inserting the
`max_entries + 1 = 1` distinct code does not leave a store with the most
recent code present — the eviction of the "oldest" entry from the empty
cache raises `StopIteration` and nothing is stored. -/
theorem addCodes_zero_capacity_raises :
    addCodes (emptyStore 0) [("A", "QR", 0)] = none := by
  decide

/-- The store in the C2 scenario: `"B"` has been seen before, `"A"` has not. -/
def c2Store : CodeStore :=
  { maxCacheSize := 10000,
    cache := [{ info := "B", ctype := "QR", timestamp := 0 }],
    fileCodes := [{ info := "B", ctype := "QR", timestamp := 0 }] }

/-- Claim C2: the spec says the worker calls `add_code` once per decoded
entry and publishes a "new result" event iff at least one call returned
true. The code violates this: the `is_new = self.storage.add_code(...)`
line sits *after* the `for code in codes:` loop (which only rebinds
`code_type` and `text`), so for the two-entry batch `"QR:A, QR:B"` —
with `"A"` new and `"B"` already stored — exactly one `add_code` call is
made, with the parse of the last element `" QR:B"` (type `" QR"`, text
`"B"`), it returns false, and no event is published, although the claim
requires two calls and a published event (since `"A"` is new). -/
theorem recognitionWorker_adds_only_last_entry :
    (pySplit "QR:A, QR:B" ',').length = 2 ∧
    dictContains c2Store.cache "A" = false ∧
    (recognitionStep c2Store (some "QR:A, QR:B") [] 1 true).addCalls = [("B", " QR")] ∧
    (recognitionStep c2Store (some "QR:A, QR:B") [] 1 true).newResultPublished = false := by
  decide

/-- Claim C8: a malformed frame (failed or excepted conversion) never
terminates the pipeline: the callback returns with the state untouched and
no signal emitted, and processing continues — five consecutive failing
frames followed by one successfully converted frame produce display events
`[false, false, false, false, false, true]` from the initial state (display
interval 1). -/
theorem malformed_frames_skipped_then_display :
    (∀ s : WorkerState, frameCallback s none = (s, noEvents)) ∧
    (processFrames initWorkerState
        [none, none, none, none, none,
         some { shape := [2, 2, 3], storage := .pythonOwned }]).2.map
      (fun ev => ev.displayEmitted) = [false, false, false, false, false, true] := by
  exact ⟨fun s => rfl, by decide⟩

/-- Witness for `malformed_frames_skipped_then_display` at the initial
state. -/
theorem malformed_frames_skipped_then_display_witness :
    frameCallback initWorkerState none = (initWorkerState, noEvents) :=
  malformed_frames_skipped_then_display.1 initWorkerState

/-- Claim C7: at a recognition-decimation boundary with the recognition
queue full (its `maxsize` is 2), `put_nowait` raises `queue.Full`, which the
callback catches and logs at debug level: the producer's own frame is
discarded, the queue is unchanged, nothing propagates, and display emission
— which happens before the enqueue attempt and does not depend on it —
continues for this frame and for subsequent frames (display interval 1). -/
theorem queueFull_drop_does_not_stall_display (s : WorkerState) (img img2 : NDArray)
    (hmax : s.queueMaxsize = 2)
    (hfull : 2 ≤ s.recognitionQueue.length)
    (hboundary : (s.frameCount + 1) % s.recognitionInterval = 0)
    (hdisp : s.displayInterval = 1) :
    (frameCallback s (some img)).1.recognitionQueue = s.recognitionQueue ∧
    (frameCallback s (some img)).2.enqueued = false ∧
    (frameCallback s (some img)).2.queueFullLogged = true ∧
    (frameCallback s (some img)).2.displayEmitted = true ∧
    (frameCallback (frameCallback s (some img)).1 (some img2)).2.displayEmitted = true := by
  have hput : tryPutNowait s.recognitionQueue s.queueMaxsize img.npCopy = none := by
    rw [tryPutNowait, hmax, if_neg]
    push_neg
    exact ⟨by omega, by omega⟩
  simp [frameCallback, hboundary, hput, hdisp, Nat.mod_one]

/-- Witness for `queueFull_drop_does_not_stall_display` at a concrete
state with a full queue on a decimation boundary. -/
theorem queueFull_drop_does_not_stall_display_witness :
    (frameCallback { initWorkerState with
                     frameCount := 9
                     recognitionQueue :=
                       [{ shape := [2, 2, 3], storage := .pythonOwned },
                        { shape := [2, 2, 3], storage := .pythonOwned }] }
        (some { shape := [2, 2, 3], storage := .pythonOwned })).2.queueFullLogged = true :=
  (queueFull_drop_does_not_stall_display _
    { shape := [2, 2, 3], storage := .pythonOwned }
    { shape := [2, 2, 3], storage := .pythonOwned }
    rfl (by decide) (by decide) rfl).2.2.1

/-- Claim C10: after any invocation of `detect_codes_with_positions` whose
detectors decoded a non-empty batch, `last_result` holds that batch's
combined text; an immediately following invocation producing the same
combined text therefore takes the `else` branch: it returns `None` as the
decoded text together with the full detection list and leaves the state
unchanged — and the worker, seeing a falsy `decoded_text`, makes no
`add_code` call and publishes no "new result" event. -/
theorem recognizer_suppresses_consecutive_duplicates
    (s : RecognizerState) (texts1 texts2 : List String)
    (dets1 dets2 : List Detection) (store : CodeStore) (now : Nat) (saveOk : Bool)
    (h1 : texts1 ≠ []) (h2 : texts2 ≠ [])
    (heq : String.intercalate ", " texts1 = String.intercalate ", " texts2) :
    (detectCodesWithPositions
        (detectCodesWithPositions s texts1 dets1).2 texts2 dets2).1 = (none, dets2) ∧
    (detectCodesWithPositions
        (detectCodesWithPositions s texts1 dets1).2 texts2 dets2).2 =
      (detectCodesWithPositions s texts1 dets1).2 ∧
    (recognitionStep store none dets2 now saveOk).addCalls = [] ∧
    (recognitionStep store none dets2 now saveOk).newResultPublished = false := by
  have hlast : (detectCodesWithPositions s texts1 dets1).2.lastResult =
      some (String.intercalate ", " texts1) := by
    rw [detectCodesWithPositions, if_pos h1]
    by_cases hne : some (String.intercalate ", " texts1) ≠ s.lastResult
    · rw [if_pos hne]
    · rw [if_neg hne]
      push_neg at hne
      exact hne.symm
  have hsecond : detectCodesWithPositions
      (detectCodesWithPositions s texts1 dets1).2 texts2 dets2 =
      ((none, dets2), (detectCodesWithPositions s texts1 dets1).2) := by
    rw [detectCodesWithPositions, if_pos h2, if_neg]
    push_neg
    rw [hlast, heq]
  exact ⟨by rw [hsecond], by rw [hsecond], rfl, rfl⟩

/-- Witness for `recognizer_suppresses_consecutive_duplicates` on a
fresh recognizer seeing the same batch twice. -/
theorem recognizer_suppresses_consecutive_duplicates_witness :
    (detectCodesWithPositions
        (detectCodesWithPositions { lastResult := none } ["QR:A"] []).2 ["QR:A"] []).1 =
      (none, []) :=
  (recognizer_suppresses_consecutive_duplicates { lastResult := none } ["QR:A"] ["QR:A"]
    [] [] (emptyStore 10) 0 true (by decide) (by decide) rfl).1

/-! ## Loading lemmas -/

theorem loadEntries_eq_append (codes : List StoredCodeEntry) :
    ∀ cache : List StoredCodeEntry,
      (∀ e ∈ codes, dictContains cache e.info = false) →
      (codes.map (fun e => e.info)).Nodup →
      loadEntries cache codes = cache ++ codes := by
  induction codes with
  | nil => intro cache _ _; simp [loadEntries]
  | cons e es ih =>
    intro cache habs hnd
    rw [List.map_cons, List.nodup_cons] at hnd
    have hce : dictContains cache e.info = false := habs e (by simp)
    have hstep : loadEntries cache (e :: es) = loadEntries (cache ++ [e]) es := by
      simp only [loadEntries, List.foldl_cons, dictSet_of_not_contains hce]
    have habs2 : ∀ x ∈ es, dictContains (cache ++ [e]) x.info = false := by
      intro x hx
      rw [dictContains_append, habs x (by simp [hx]), Bool.false_or,
        dictContains_eq_false_iff]
      intro y hy
      rw [List.mem_singleton] at hy
      subst hy
      exact fun hcontra => hnd.1 (by rw [hcontra]; exact List.mem_map_of_mem _ hx)
    rw [hstep, ih (cache ++ [e]) habs2 hnd.2]
    simp

/-- Entries with duplicate `info` keys (allowed by the claim, which only
requires distinct timestamps) collapse in the cache dict. -/
def dupKeyCodesList : List StoredCodeEntry :=
  [{ info := "X", ctype := "QR", timestamp := 3 },
   { info := "X", ctype := "QR", timestamp := 2 },
   { info := "Y", ctype := "QR", timestamp := 1 }]

/-- Claim C4, counterexample to the claim as stated: a backing file over the
size threshold (here 100 MB + 1 byte against the default 100 MB) containing
`N = 3 > max_entries = 2` entries with distinct timestamps, but whose two
most recent entries share the same text key, loads into a cache with a
single entry — `for entry in recent_codes: self.codes_cache[entry['info']]
= entry` collapses equal keys — not `max_entries = 2` as claimed. -/
theorem loadFromFile_dup_keys_undercount :
    104857601 > 100 * 1024 * 1024 ∧
    dupKeyCodesList.length = 3 ∧
    (dupKeyCodesList.map (fun e => e.timestamp)).Nodup ∧
    (loadFromFile 2 100 104857601 dupKeyCodesList).length = 1 := by
  decide

/-- Claim C4 (amended: the file's entries additionally have
pairwise-distinct text keys): when the backing file exceeds the size
threshold and holds more than `max_cache_size` entries with distinct
timestamps and distinct keys, the partial load yields exactly
`max_cache_size` cache entries, and every discarded entry's timestamp is
less than or equal to every retained entry's timestamp. -/
theorem loadFromFile_partial_retains_most_recent (maxC maxMB fileSize : Nat)
    (l : List StoredCodeEntry)
    (hsize : fileSize > maxMB * 1024 * 1024)
    (hcount : l.length > maxC)
    (hkeys : (l.map (fun e => e.info)).Nodup)
    (hts : (l.map (fun e => e.timestamp)).Nodup) :
    (loadFromFile maxC maxMB fileSize l).length = maxC ∧
    ∀ r ∈ loadFromFile maxC maxMB fileSize l, ∀ d ∈ l,
      d ∉ loadFromFile maxC maxMB fileSize l → d.timestamp ≤ r.timestamp := by
  have hperm : List.Perm (List.insertionSort tsGE l) l := List.perm_insertionSort tsGE l
  have hkeys2 : ((List.insertionSort tsGE l).map (fun e => e.info)).Nodup :=
    ((hperm.map (fun e => e.info)).nodup_iff).mpr hkeys
  have htake : (((List.insertionSort tsGE l).take maxC).map (fun e => e.info)).Nodup := by
    rw [List.map_take]
    exact hkeys2.sublist (List.take_sublist _ _)
  have hres : loadFromFile maxC maxMB fileSize l =
      (List.insertionSort tsGE l).take maxC := by
    rw [loadFromFile, if_pos hsize]
    show loadEntries [] ((List.insertionSort tsGE l).take maxC) = _
    rw [loadEntries_eq_append _ [] (fun e _ => rfl) htake, List.nil_append]
  constructor
  · rw [hres, List.length_take, List.length_insertionSort]
    omega
  · intro r hr d hd hnot
    rw [hres] at hr hnot
    have hsorted : List.Pairwise tsGE (List.insertionSort tsGE l) :=
      List.sorted_insertionSort tsGE l
    have hd2 : d ∈ List.insertionSort tsGE l := hperm.mem_iff.mpr hd
    rw [← List.take_append_drop maxC (List.insertionSort tsGE l)] at hsorted hd2
    rcases List.mem_append.mp hd2 with hdt | hdd
    · exact absurd hdt hnot
    · exact (List.pairwise_append.mp hsorted).2.2 r hr d hdd

/-- Witness for `loadFromFile_partial_retains_most_recent` on a concrete
oversized backing file. -/
theorem loadFromFile_partial_retains_most_recent_witness :
    (loadFromFile 2 100 104857601
      [{ info := "X", ctype := "QR", timestamp := 3 },
       { info := "Y", ctype := "QR", timestamp := 2 },
       { info := "Z", ctype := "QR", timestamp := 1 }]).length = 2 :=
  (loadFromFile_partial_retains_most_recent 2 100 104857601 _
    (by decide) (by decide) (by decide) (by decide)).1

/-! ## Capacity lemmas for `add_code` -/

/-- The entry `add_code` constructs for one `(text, code_type, timestamp)`
triple. -/
def mkStoredEntry (c : String × String × Nat) : StoredCodeEntry :=
  { info := c.1, ctype := c.2.1, timestamp := c.2.2 }

theorem dictContains_map_mk (l : List (String × String × Nat)) (k : String) :
    dictContains (l.map mkStoredEntry) k = l.any (fun c => c.1 = k) := by
  induction l with
  | nil => rfl
  | cons c cs ih =>
    unfold dictContains at ih ⊢
    rw [List.map_cons, List.any_cons, List.any_cons, ih]
    rfl

theorem addCode_fresh (s : CodeStore) (c : String × String × Nat)
    (habs : dictContains s.cache c.1 = false)
    (hlt : s.cache.length < s.maxCacheSize) :
    addCode s c.1 c.2.1 c.2.2 true =
      some { isNew := true,
             store := { s with
                        cache := s.cache ++ [mkStoredEntry c]
                        fileCodes := s.cache ++ [mkStoredEntry c] },
             saveCalls := 1 } := by
  rw [addCode, if_neg (by simp [habs]), if_neg (by omega)]
  simp [dictSet_of_not_contains habs, mkStoredEntry]

theorem addCodes_fill (codes : List (String × String × Nat)) :
    ∀ s : CodeStore,
      (∀ c ∈ codes, dictContains s.cache c.1 = false) →
      (codes.map (fun c => c.1)).Nodup →
      s.cache.length + codes.length ≤ s.maxCacheSize →
      ∃ s', addCodes s codes = some s' ∧
        s'.maxCacheSize = s.maxCacheSize ∧
        s'.cache = s.cache ++ codes.map mkStoredEntry := by
  induction codes with
  | nil => intro s _ _ _; exact ⟨s, rfl, rfl, by simp [addCodes]⟩
  | cons c cs ih =>
    intro s habs hnd hlen
    rw [List.map_cons, List.nodup_cons] at hnd
    have hc : dictContains s.cache c.1 = false := habs c (by simp)
    have hlt : s.cache.length < s.maxCacheSize := by
      rw [List.length_cons] at hlen; omega
    have hone := addCode_fresh s c hc hlt
    have habs2 : ∀ x ∈ cs,
        dictContains (s.cache ++ [mkStoredEntry c]) x.1 = false := by
      intro x hx
      rw [dictContains_append, habs x (by simp [hx]), Bool.false_or,
        dictContains_eq_false_iff]
      intro y hy
      rw [List.mem_singleton] at hy
      subst hy
      show (mkStoredEntry c).info ≠ x.1
      exact fun hcontra => hnd.1 (by
        rw [show c.1 = (mkStoredEntry c).info from rfl, hcontra]
        exact List.mem_map_of_mem _ hx)
    obtain ⟨s', hrun, hmax, hcache⟩ :=
      ih { s with
           cache := s.cache ++ [mkStoredEntry c]
           fileCodes := s.cache ++ [mkStoredEntry c] } habs2 hnd.2
        (by simp only [List.length_append, List.length_singleton]
            rw [List.length_cons] at hlen
            omega)
    refine ⟨s', ?_, by rw [hmax], by rw [hcache]; simp⟩
    rw [addCodes, hone]
    exact hrun

theorem addCode_evict (s : CodeStore) (c : String × String × Nat)
    (e0 : StoredCodeEntry) (tail : List StoredCodeEntry)
    (hcache : s.cache = e0 :: tail)
    (habs : dictContains s.cache c.1 = false)
    (hfull : s.cache.length ≥ s.maxCacheSize) :
    addCode s c.1 c.2.1 c.2.2 true =
      some { isNew := true,
             store := { s with
                        cache := tail ++ [mkStoredEntry c]
                        fileCodes := tail ++ [mkStoredEntry c] },
             saveCalls := 1 } := by
  have htail : dictContains tail c.1 = false := by
    rw [dictContains_eq_false_iff] at habs ⊢
    intro x hx
    exact habs x (by rw [hcache]; simp [hx])
  rw [addCode, if_neg (by simp [habs]), hcache, if_pos (by rw [hcache] at hfull; exact hfull)]
  simp [dictSet_of_not_contains htail, mkStoredEntry]

theorem addCodes_append (l1 l2 : List (String × String × Nat)) :
    ∀ s : CodeStore, addCodes s (l1 ++ l2) =
      (addCodes s l1).bind (fun s1 => addCodes s1 l2) := by
  induction l1 with
  | nil => intro s; simp [addCodes]
  | cons c cs ih =>
    intro s
    rw [List.cons_append]
    cases h : addCode s c.1 c.2.1 c.2.2 true with
    | none => simp [addCodes, h]
    | some r => simp [addCodes, h, ih r.store]

/-- Claim C5 (amended: capacity `max_entries ≥ 1`): starting from an empty
store, adding `max_entries + 1` pairwise-distinct codes leaves exactly
`max_entries` cached entries, with the first inserted code's key absent
(evicted oldest-first) and the last inserted code's key present. The final
membership facts are extracted through `Option.map` so that the statement is
a single computable equation. -/
theorem addCodes_capacity_evicts_oldest (max : Nat) (c0 : String × String × Nat)
    (rest : List (String × String × Nat))
    (hmax : 0 < max) (hlen : rest.length = max)
    (hnodup : ((c0 :: rest).map (fun c => c.1)).Nodup) :
    ((addCodes (emptyStore max) (c0 :: rest)).map (fun s =>
        (s.cache.length,
         dictContains s.cache c0.1,
         dictContains s.cache (((c0 :: rest).getLast (List.cons_ne_nil c0 rest)).1))))
      = some (max, false, true) := by
  rcases List.eq_nil_or_concat rest with rfl | ⟨ys, y, hrest⟩
  · rw [List.length_nil] at hlen; omega
  · subst hrest
    rw [List.concat_eq_append] at hlen hnodup ⊢
    -- unpack the distinctness of the keys
    rw [List.map_cons, List.nodup_cons, List.map_append] at hnodup
    have hc0y : c0.1 ≠ y.1 := fun h => hnodup.1 (by rw [h]; simp)
    have hc0ys : c0.1 ∉ ys.map (fun c => c.1) := fun h => hnodup.1 (by simp [h])
    have hyys : y.1 ∉ ys.map (fun c => c.1) := by
      intro h
      exact List.disjoint_of_nodup_append hnodup.2 h (by simp)
    have hysnd : (ys.map (fun c => c.1)).Nodup := hnodup.2.of_append_left
    -- the last element of the insertion sequence is y
    have hgetLast : (c0 :: (ys ++ [y])).getLast (List.cons_ne_nil c0 (ys ++ [y])) = y := by
      rw [List.getLast_cons (by simp), List.getLast_concat]
    rw [hgetLast]
    have hlist : c0 :: (ys ++ [y]) = (c0 :: ys) ++ [y] := rfl
    rw [hlist, addCodes_append]
    -- phase 1: the first max = |c0 :: ys| inserts fill the store in order
    have hlen1 : ys.length + 1 = max := by
      rw [List.length_append, List.length_singleton] at hlen
      omega
    obtain ⟨s1, hrun1, hmax1, hcache1⟩ :=
      addCodes_fill (c0 :: ys) (emptyStore max) (fun c _ => rfl)
        (by rw [List.map_cons, List.nodup_cons]; exact ⟨hc0ys, hysnd⟩)
        (by simp [emptyStore, List.length_cons]; omega)
    have hcache1' : s1.cache = List.map mkStoredEntry (c0 :: ys) := by
      rw [hcache1]
      exact rfl
    have hmax1' : s1.maxCacheSize = max := by
      rw [hmax1]
      exact rfl
    rw [hrun1, Option.some_bind]
    -- phase 2: the (max+1)-st insert evicts the front entry (the c0 entry)
    have hcont1 : dictContains s1.cache y.1 = false := by
      rw [hcache1', dictContains_map_mk, List.any_eq_false]
      intro x hx
      simp only [decide_eq_true_eq]
      intro hxy
      rw [List.mem_cons] at hx
      rcases hx with rfl | hx
      · exact hc0y hxy
      · exact hyys (by rw [← hxy]; exact List.mem_map_of_mem _ hx)
    have hadd2 := addCode_evict s1 y (mkStoredEntry c0) (List.map mkStoredEntry ys)
      (by rw [hcache1', List.map_cons])
      hcont1
      (by rw [hcache1', hmax1', List.length_map, List.length_cons]; omega)
    simp only [addCodes, hadd2]
    -- read off the three components of the final store
    rw [Option.map_some']
    refine congrArg some ?_
    refine Prod.ext ?_ (Prod.ext ?_ ?_)
    · show (List.map mkStoredEntry ys ++ [mkStoredEntry y]).length = max
      rw [List.length_append, List.length_map, List.length_singleton]
      omega
    · show dictContains (List.map mkStoredEntry ys ++ [mkStoredEntry y]) c0.1 = false
      rw [dictContains_append, Bool.or_eq_false_iff]
      constructor
      · rw [dictContains_map_mk, List.any_eq_false]
        intro x hx
        simp only [decide_eq_true_eq]
        exact fun h => hc0ys (by rw [← h]; exact List.mem_map_of_mem _ hx)
      · simp [dictContains, mkStoredEntry]
        exact fun h => hc0y h.symm
    · show dictContains (List.map mkStoredEntry ys ++ [mkStoredEntry y]) y.1 = true
      rw [dictContains_append, Bool.or_eq_true]
      right
      simp [dictContains, mkStoredEntry]

/-- Witness for `addCodes_capacity_evicts_oldest`: capacity 2, three
distinct codes; the first is evicted, the third is present. -/
theorem addCodes_capacity_evicts_oldest_witness :
    ((addCodes (emptyStore 2) [("A", "QR", 0), ("B", "QR", 1), ("C", "QR", 2)]).map
        (fun s =>
          (s.cache.length, dictContains s.cache "A", dictContains s.cache "C")))
      = some (2, false, true) :=
  addCodes_capacity_evicts_oldest 2 ("A", "QR", 0) [("B", "QR", 1), ("C", "QR", 2)]
    (by decide) (by decide) (by decide)
